import Mathlib

/-!
Verification of the X-List-Scraper incremental crawl core against its
specification.  The definitions below are shallow embeddings of the Python
source (`src/scraper.py` and `src/multi_account_scraper.py`):

* tweet ids are the decimal strings delivered by the source; the code
  compares them with `int(...)`, which we model with `idNum`;
* the watermark update of `monitor_list_real_time` (scraper.py:1467-1469)
  and `scrape_list` (scraper.py:1092-1093) is `advanceWatermark`;
* the history merge of the monitor loop (scraper.py:1474-1484) and of the
  `--once` path (scraper.py:1780-1788) is `mergeHistory`;
* the extractor `extract_tweet_metadata` (scraper.py:779-980), the XHR
  processor `_process_xhr_calls` (scraper.py:982-1027) and the scroll loop
  of `scrape_list` (scraper.py:1057-1101, 1137-1141) are embedded over
  structured fragments (`RawTweet`, `Entry`);
* the backoff / account-switch state machine of the monitor loop
  (scraper.py:1387-1401, 1519-1584) is `cycleStep`;
* the account pool of `MultiAccountScraper` (multi_account_scraper.py:
  162-258, 309-327) is embedded over `Account`;
* the persistence layer (`save_last_tweet_id`, scraper.py:767-770, and the
  direct `open(..., "w")` history writes) is modelled by a small
  visible-file-state trace.
-/

namespace XListScraper

/-- Numeric value of a tweet id, `int(s)` in the source, computed over the
decimal digits.  Source ids are canonical decimal strings; on a non-digit
string the source would raise `ValueError`, which never happens for real
ids, so only the digit-string behaviour matters. -/
def idNum (s : String) : Nat :=
  s.data.foldl (fun n c => n * 10 + (c.toNat - 48)) 0

/-- An id string is canonical when it is the decimal representation of its
numeric value (true of all ids delivered by the source). -/
def CanonicalId (s : String) : Prop := s = Nat.repr (idNum s)

instance (s : String) : Decidable (CanonicalId s) := by
  unfold CanonicalId; infer_instance

/-! ### Watermark store

`monitor_list_real_time` (scraper.py:1467-1469):
```
if newest_id_from_scrape and (last_tweet_id is None or
        int(newest_id_from_scrape) > int(last_tweet_id)):
    last_tweet_id = newest_id_from_scrape
    save_last_tweet_id(last_tweet_id)
```
`scrape_list` keeps its running `overall_newest_id` with the same rule
(scraper.py:1092-1093).  `None` models a missing candidate, and the empty
string is rejected by the Python truthiness test. -/

def advanceWatermark (current candidate : Option String) : Option String :=
  match candidate with
  | none => current
  | some c =>
    if c = "" then current
    else
      match current with
      | none => some c
      | some w => if idNum w < idNum c then some c else some w

/-- Order on watermarks: absent is below everything, present watermarks are
compared numerically. -/
def wmLe (a b : Option String) : Prop :=
  match a, b with
  | none, _ => True
  | some _, none => False
  | some x, some y => idNum x ≤ idNum y

/-! ### Item extractor

`extract_tweet_metadata` (scraper.py:779-980).  The raw GraphQL fragment is
embedded as a structure of optional fields: `none` models an absent key,
matching Python's `dict.get`.  Python truthiness tests (`if not tweet_id`)
reject both `None` and the empty string, and the model mirrors that.  The
two `re.findall` scans over the serialized fragment (scraper.py:894-915)
are modelled by carrying the ordered capture lists (`screenNameMatches`,
`nameMatches`) inside the fragment. -/

structure UserLegacy where
  name : Option String
  screen_name : Option String
  verified : Option Bool
  followers_count : Option Nat
  profile_image_url_https : Option String
  deriving Repr, DecidableEq

/-- `core > user_results > result` (and the two alternate nestings). -/
structure UserResult where
  rest_id : Option String
  legacy : Option UserLegacy
  is_blue_verified : Option Bool
  deriving Repr, DecidableEq

/-- Direct `user` property fallback (scraper.py:870-879). -/
structure DirectUser where
  id_str : Option String
  idField : Option String
  name : Option String
  screen_name : Option String
  verified : Option Bool
  followers_count : Option Nat
  profile_image_url_https : Option String
  deriving Repr, DecidableEq

structure MediaEntity where
  mtype : Option String
  media_url_https : Option String
  expanded_url : Option String
  deriving Repr, DecidableEq

structure MentionEntity where
  screen_name : Option String
  id_str : Option String
  deriving Repr, DecidableEq

structure UrlEntity where
  expanded_url : Option String
  display_url : Option String
  deriving Repr, DecidableEq

/-- `legacy.entities`; each field is `none` when the key is absent. -/
structure RawEntities where
  user_mentions : Option (List MentionEntity)
  hashtags : Option (List (Option String))
  urls : Option (List UrlEntity)
  deriving Repr, DecidableEq

/-- The tweet `legacy` object. -/
structure LegacyData where
  full_text : Option String
  created_at : Option String
  lang : Option String
  retweet_count : Option Nat
  reply_count : Option Nat
  favorite_count : Option Nat
  quote_count : Option Nat
  bookmark_count : Option Nat
  user_id_str : Option String
  user_screen_name : Option String
  media : List MediaEntity
  entities : Option RawEntities
  deriving Repr, DecidableEq

/-- `tweet_content.get("legacy", {})` falls back to an empty dict. -/
def LegacyData.empty : LegacyData :=
  ⟨none, none, none, none, none, none, none, none, none, none, [], none⟩

/-- One raw tweet fragment (`entry.content.itemContent.tweet_results.result`). -/
structure RawTweet where
  rest_id : Option String
  legacy : Option LegacyData
  coreUser : Option UserResult
  user_results : Option UserResult
  user_results_data : Option UserResult
  user : Option DirectUser
  viewsCount : Option String
  /-- Ordered captures of `re.findall(r'"screen_name": "..."', json.dumps(fragment))`. -/
  screenNameMatches : List String
  /-- Ordered captures of `re.findall(r'"name": "..."', json.dumps(fragment))`. -/
  nameMatches : List String
  deriving Repr, DecidableEq

/-- Normalized user record produced by the fallback chain.  `name` and
`username` start as `"Unknown"` and may be overwritten with `none` by an
update from a fragment whose nested field is absent, exactly as the Python
dict updates do. -/
structure UserData where
  id : Option String
  name : Option String
  username : Option String
  verified : Bool
  is_blue_verified : Bool
  followers_count : Option Nat
  profile_image_url : Option String
  deriving Repr, DecidableEq

structure Stats where
  retweet_count : Nat
  reply_count : Nat
  like_count : Nat
  quote_count : Nat
  bookmark_count : Nat
  view_count : String
  deriving Repr, DecidableEq

structure EntitiesOut where
  mentions : Option (List MentionEntity)
  hashtags : Option (List String)
  urls : Option (List UrlEntity)
  deriving Repr, DecidableEq

/-- Normalized item (`tweet_data` dict built by the extractor). -/
structure TweetData where
  id : String
  created_at : Option String
  text : String
  lang : Option String
  user : UserData
  stats : Stats
  media : Option (List MediaEntity)
  entities : EntitiesOut
  deriving Repr, DecidableEq

/-- Python truthiness of an optional string: `None` and `""` are falsy. -/
def strTruthy : Option String → Bool
  | none => false
  | some s => !(s = "")

/-- `user_data["username"] == "Unknown" or user_data["username"] is None`. -/
def unknownOrNone : Option String → Bool
  | none => true
  | some s => s = "Unknown"

/-- Engagement stats (scraper.py:937-944): every numeric counter defaults
to 0 when absent, the view counter to the string "0". -/
def mkStats (rt : RawTweet) (legacy : LegacyData) : Stats :=
  { retweet_count := legacy.retweet_count.getD 0
    reply_count := legacy.reply_count.getD 0
    like_count := legacy.favorite_count.getD 0
    quote_count := legacy.quote_count.getD 0
    bookmark_count := legacy.bookmark_count.getD 0
    view_count := rt.viewsCount.getD "0" }

/-- Initial `user_data` dict (scraper.py:808-816). -/
def UserData.initial : UserData :=
  { id := none, name := some "Unknown", username := some "Unknown"
    verified := false, is_blue_verified := false
    followers_count := none, profile_image_url := none }

/-- `user_data.update({...})` for the three `user_results`-shaped paths
(scraper.py:822-830, 847-855, 860-868). -/
def updateFromUserResult (u : UserResult) (ul : UserLegacy) (d : UserData) : UserData :=
  { d with
    id := u.rest_id
    name := ul.name
    username := ul.screen_name
    verified := (ul.verified.getD false)
    is_blue_verified := (u.is_blue_verified.getD false)
    followers_count := ul.followers_count
    profile_image_url := ul.profile_image_url_https }

/-- The author fallback chain (scraper.py:818-932).  Returns `none` on the
one path where the source would raise `AttributeError`
(`user_data["name"].lower()` with `name` equal to `None`,
scraper.py:922-924), which aborts extraction of the surrounding batch. -/
def buildUser (rt : RawTweet) (legacy : LegacyData) : Option UserData :=
  let d0 := UserData.initial
  -- primary path: core > user_results > result > legacy (scraper.py:819-841)
  let d1 :=
    match rt.coreUser with
    | some u =>
      match u.legacy with
      | some ul =>
        let d := updateFromUserResult u ul d0
        -- re-reads of the same location when legacy lacked the value
        let d := if !(strTruthy d.username) || d.username = some "Unknown" then
            (if strTruthy ul.screen_name then { d with username := ul.screen_name } else d)
          else d
        let d := if !(strTruthy d.name) || d.name = some "Unknown" then
            (if strTruthy ul.name then { d with name := ul.name } else d)
          else d
        d
      | none => fallback1 d0
    | none => fallback1 d0
  -- scraper.py:887-891
  let d2 :=
    if unknownOrNone d1.username && strTruthy legacy.user_screen_name then
      { d1 with username := legacy.user_screen_name }
    else d1
  -- regex fallback for the username (scraper.py:894-903)
  let d3 :=
    if unknownOrNone d2.username then
      match rt.screenNameMatches.filter (fun m => !(m = "") && !(m = "Unknown")) with
      | m :: _ => { d2 with username := some m }
      | [] => d2
    else d2
  -- regex fallback for the name (scraper.py:906-915)
  let d4 :=
    if unknownOrNone d3.name then
      match rt.nameMatches.filter (fun m => !(m = "") && !(m = "Unknown")) with
      | m :: _ => { d3 with name := some m }
      | [] => d3
    else d3
  -- scraper.py:918-919
  let d5 :=
    if d4.username = some "Unknown" && strTruthy legacy.user_screen_name then
      { d4 with username := legacy.user_screen_name }
    else d4
  -- synthesize a handle from the display name (scraper.py:922-926)
  if d5.username = some "Unknown" && !(d5.name = some "Unknown") then
    match d5.name with
    | some n =>
      some { d5 with
              username := some ((n.toLower.replace " " "_") ++ "_user") }
    | none => none
  else
    some d5
where
  /-- Fallbacks 1-4 (scraper.py:844-884), tried in order. -/
  fallback1 (d0 : UserData) : UserData :=
    match rt.user_results with
    | some u =>
      match u.legacy with
      | some ul => updateFromUserResult u ul d0
      | none => fallback2 d0
    | none => fallback2 d0
  fallback2 (d0 : UserData) : UserData :=
    match rt.user_results_data with
    | some u =>
      match u.legacy with
      | some ul => updateFromUserResult u ul d0
      | none => fallback3 d0
    | none => fallback3 d0
  fallback3 (d0 : UserData) : UserData :=
    match rt.user with
    | some du =>
      { d0 with
        id := if strTruthy du.id_str then du.id_str else du.idField
        name := du.name
        username := du.screen_name
        verified := du.verified.getD false
        followers_count := du.followers_count
        profile_image_url := du.profile_image_url_https }
    | none =>
      if strTruthy legacy.user_id_str then { d0 with id := legacy.user_id_str }
      else d0

/-- Media list (scraper.py:947-957): the `media` key is only present when
`extended_entities.media` is non-empty. -/
def mkMedia (legacy : LegacyData) : Option (List MediaEntity) :=
  match legacy.media with
  | [] => none
  | ms => some (ms.map (fun m => ⟨m.mtype, m.media_url_https, m.expanded_url⟩))

/-- Entities (scraper.py:960-978): each key is copied only when present. -/
def mkEntities (legacy : LegacyData) : EntitiesOut :=
  match legacy.entities with
  | none => ⟨none, none, none⟩
  | some e =>
    { mentions := e.user_mentions.map (fun ms =>
        ms.map (fun m => ⟨m.screen_name, m.id_str⟩))
      hashtags := e.hashtags.map (fun hs =>
        hs.filterMap (fun h => match h with
          | some t => if t = "" then none else some t
          | none => none))
      urls := e.urls.map (fun us =>
        us.map (fun u => ⟨u.expanded_url, u.display_url⟩)) }

/-- `extract_tweet_metadata` (scraper.py:779-980): `none` for a missing
fragment, a falsy `rest_id`, or a falsy `full_text`; otherwise a fully
normalized item whose numeric counters default to 0. -/
def extract_tweet_metadata (tweet_content : Option RawTweet) : Option TweetData :=
  match tweet_content with
  | none => none
  | some rt =>
    match rt.rest_id with
    | none => none
    | some tid =>
      if tid = "" then none
      else
        let legacy := rt.legacy.getD LegacyData.empty
        match legacy.full_text with
        | none => none
        | some txt =>
          if txt = "" then none
          else
            match buildUser rt legacy with
            | none => none
            | some u =>
              some { id := tid
                     created_at := legacy.created_at
                     text := txt
                     lang := legacy.lang
                     user := u
                     stats := mkStats rt legacy
                     media := mkMedia legacy
                     entities := mkEntities legacy }

/-! ### Fetch cycle

`_process_xhr_calls` (scraper.py:982-1027) and the scroll loop of
`scrape_list` (scraper.py:1029-1141).  A timeline entry carries its
`entryId` and the nested `content.itemContent.tweet_results.result`
fragment; `none` for the latter models the `KeyError` path
(scraper.py:1018-1020).  An XHR call is a parsed response:
`none` models a JSON parse failure (scraper.py:1025-1026), otherwise its
list of instructions, each of which may lack the `"entries"` key. -/

structure Entry where
  entryId : String
  content : Option RawTweet
  deriving Repr, DecidableEq

/-- One instruction: `none` when `"entries" in instr` fails. -/
abbrev Instruction := Option (List Entry)

/-- One intercepted XHR call: `none` when `xhr.json()` raises. -/
abbrev XhrCall := Option (List Instruction)

/-- `entry["entryId"].startswith("tweet-")`, computed over the character
lists. -/
def strStartsWith (pre s : String) : Bool := pre.data.isPrefixOf s.data

/-- `if limit and len(current) >= limit` — `limit` of `None` (and the
CLI-normalised 0) disables the limit. -/
def limitReached (limit : Option Nat) (n : Nat) : Bool :=
  match limit with
  | none => false
  | some l => !(l = 0) && l ≤ n

/-- Mutable state threaded through one cycle: the per-cycle seen-id set,
the cycle-cumulative extracted list (`all_new_tweets_metadata` /
`current_tweets_metadata_list`), the per-batch new list and newest id, and
whether the limit fired (which makes `_process_xhr_calls` return). -/
structure ProcState where
  seen : List String
  acc : List TweetData
  batchNew : List TweetData
  newestBatch : Option String
  limitHit : Bool
  deriving Repr, DecidableEq

/-- Body of the per-entry processing (scraper.py:1000-1017). -/
def processEntry (last : Option String) (limit : Option Nat)
    (st : ProcState) (e : Entry) : ProcState :=
  if !(strStartsWith "tweet-" e.entryId) then st
  else
    match e.content with
    | none => st
    | some tc =>
      match tc.rest_id with
      | none => st
      | some tid =>
        if tid = "" then st
        else if tid ∈ st.seen then st
        else
          let st1 := { st with seen := tid :: st.seen }
          if (match last with
              | none => true
              | some l => decide (idNum l < idNum tid)) then
            let st2 :=
              match extract_tweet_metadata (some tc) with
              | some t =>
                { st1 with
                  batchNew := st1.batchNew ++ [t]
                  acc := st1.acc ++ [t] }
              | none => st1
            let st3 :=
              { st2 with
                newestBatch :=
                  match st2.newestBatch with
                  | none => some tid
                  | some nb =>
                    if !(tid = "") && decide (idNum nb < idNum tid) then some tid
                    else some nb }
            { st3 with limitHit := limitReached limit st3.acc.length }
          else st1

/-- Left fold that stops consuming once the limit fired, modelling the
early `return` of `_process_xhr_calls`. -/
def procFold (f : ProcState → α → ProcState) : ProcState → List α → ProcState
  | st, [] => st
  | st, a :: as => if st.limitHit then st else procFold f (f st a) as

def processInstruction (last : Option String) (limit : Option Nat)
    (st : ProcState) (instr : Instruction) : ProcState :=
  match instr with
  | none => st
  | some entries => procFold (processEntry last limit) st entries

def processXhr (last : Option String) (limit : Option Nat)
    (st : ProcState) (xhr : XhrCall) : ProcState :=
  match xhr with
  | none => st
  | some instrs => procFold (processInstruction last limit) st instrs

/-- `_process_xhr_calls(xhr_calls, last_tweet_id, limit, seen_ids,
current_tweets_metadata_list)`: processes the buffered calls against the
shared seen set and cumulative list, returning the fresh per-batch values.
The caller passes a state whose `batchNew`/`newestBatch`/`limitHit` fields
are reset. -/
def processXhrCalls (last : Option String) (limit : Option Nat)
    (st : ProcState) (xhrs : List XhrCall) : ProcState :=
  procFold (processXhr last limit) st xhrs

/-- Result of one cycle of `scrape_list`: the sorted, trimmed new-item list,
the final `overall_newest_id`, and how many passes (initial load plus
scrolls) actually processed their buffer. -/
structure ScrapeResult where
  items : List TweetData
  newest : Option String
  passesRun : Nat
  deriving Repr, DecidableEq

/-- Sort key `int(x.get("id", 0))` (scraper.py:1137, 1479, 1785). -/
def tweetKey (t : TweetData) : Nat := idNum t.id

/-- `list.sort(key=..., reverse=True)`: stable descending sort by numeric
id, realised as an insertion sort with the reversed relation. -/
def sortByIdDesc (l : List TweetData) : List TweetData :=
  l.insertionSort (fun a b => tweetKey b ≤ tweetKey a)

instance : IsTotal TweetData (fun a b => tweetKey b ≤ tweetKey a) :=
  ⟨fun a b => le_total (tweetKey b) (tweetKey a)⟩

instance : IsTrans TweetData (fun a b => tweetKey b ≤ tweetKey a) :=
  ⟨fun _ _ _ hab hbc => le_trans hbc hab⟩

/-- Descending sort of a list of numeric ids (specification side: the
"k highest ids" are the first k elements of this list). -/
def sortDescNat (l : List Nat) : List Nat := l.insertionSort (· ≥ ·)

/-- The scroll loop (scraper.py:1057-1101): pass `i = 0` is the initial
content check, later passes are scrolls.  After each pass the buffered XHR
calls are drained; the loop breaks when the limit fired, or when the first
pass produced no new items while a watermark was already known
(scraper.py:1099-1101). -/
def scrapeLoop (last : Option String) (limit : Option Nat) :
    ProcState → Option String → Nat → List (List XhrCall) →
    ProcState × Option String × Nat
  | st, overall, passes, [] => (st, overall, passes)
  | st, overall, passes, buf :: rest =>
    let st' := processXhrCalls last limit
      { st with batchNew := [], newestBatch := none, limitHit := false } buf
    -- scraper.py:1092-1093 is the same guarded update as the monitor's
    -- watermark advance, so it is shared with `advanceWatermark`.
    let overall' := advanceWatermark overall st'.newestBatch
    if st'.limitHit then (st', overall', passes + 1)
    else if passes = 0 && st'.batchNew = [] && !(last = none) then
      (st', overall', passes + 1)
    else scrapeLoop last limit st' overall' (passes + 1) rest

/-- `scrape_list` (scraper.py:1029-1141) over the per-pass buffers of
intercepted XHR calls.  `overall_newest_id` starts at the incoming
watermark (scraper.py:1032); the collected list is sorted descending by
numeric id and trimmed to the limit (scraper.py:1137-1139). -/
def scrapeRaw (passBuffers : List (List XhrCall)) (last : Option String)
    (limit : Option Nat) : ProcState × Option String × Nat :=
  scrapeLoop last limit ⟨[], [], [], none, false⟩ last 0 passBuffers

/-- Final trim `all_new_tweets_metadata[:limit]` (scraper.py:1138-1139). -/
def trimToLimit (limit : Option Nat) (l : List TweetData) : List TweetData :=
  match limit with
  | some k => if !(k = 0) && k < l.length then l.take k else l
  | none => l

def scrape_list (passBuffers : List (List XhrCall)) (last : Option String)
    (limit : Option Nat) : ScrapeResult :=
  let r := scrapeRaw passBuffers last limit
  ⟨trimToLimit limit (sortByIdDesc r.1.acc), r.2.1, r.2.2⟩

/-- Invariant carried by the cycle state: extracted ids are pairwise
distinct, every extracted id is in the seen set, and every extracted item
is strictly newer than the incoming watermark. -/
def CycleInv (last : Option String) (st : ProcState) : Prop :=
  (st.acc.map (·.id)).Nodup ∧
  (∀ t ∈ st.acc, t.id ∈ st.seen) ∧
  (∀ t ∈ st.acc, ∀ l, last = some l → idNum l < idNum t.id)

/-- Within a single pass started from an empty cycle state, the cumulative
list and the per-batch list coincide and the limit flag is justified by
the cumulative length. -/
def BatchAccInv (limit : Option Nat) (st : ProcState) : Prop :=
  st.acc = st.batchNew ∧
  (st.limitHit = true → limitReached limit st.acc.length = true)

/-- "The first pass yields zero new items": the initial content check
extracts nothing. -/
def firstPassEmpty (last : Option String) (limit : Option Nat)
    (passBuffers : List (List XhrCall)) : Prop :=
  match passBuffers with
  | [] => False
  | buf :: _ =>
    (processXhrCalls last limit ⟨[], [], [], none, false⟩ buf).batchNew = []

/-! ### History store

The merge performed by the monitor loop (scraper.py:1474-1484) and by the
`--once` path (scraper.py:1780-1788): drop incoming items whose id string
is already present, prepend the remaining new items, re-sort descending by
numeric id, and trim to `max_history`. -/

def mergeHistory (maxHistory : Nat) (history newItems : List TweetData) :
    List TweetData :=
  let existingIds := history.map (·.id)
  let uniqueNew := newItems.filter (fun t => !(existingIds.contains t.id))
  let merged := uniqueNew ++ history
  let sorted := sortByIdDesc merged
  if maxHistory < sorted.length then sorted.take maxHistory else sorted

/-- The history after a sequence of cycle batches, starting from an empty
store. -/
def mergeAll (maxHistory : Nat) (batches : List (List TweetData)) :
    List TweetData :=
  batches.foldl (mergeHistory maxHistory) []

/-! ### Backoff & recovery controller

The error handling of `monitor_list_real_time` (scraper.py:1379-1584).
One shared `consecutive_error_count` and `current_wait_time` drive the
cadence; `using_backup_account` selects the identity.  A cycle outcome is:

* `success` — `scrape_list` returned without raising and found new items;
* `partialEmpty` — `scrape_list` returned without raising but found
  nothing;
* `timeout` / `error` — `scrape_list` raised `PageLoadError`
  (scraper.py:1103-1110); the two classifications differ only in logging
  (scraper.py:1528-1533) and share the backoff path (scraper.py:1525-1526,
  1535-1566).

`backupAvailable` models `backup_email` being configured and `switchOk`
models `switch_to_backup_account` succeeding. -/

inductive CycleOutcome
  | success
  | partialEmpty
  | timeout
  | error
  deriving Repr, DecidableEq

structure MonState where
  usingBackup : Bool
  count : Nat
  wait : Nat
  deriving Repr, DecidableEq

/-- One iteration of the monitor loop's outcome handling.

* Primary, no exception (scraper.py:1399-1401): the counter and wait are
  reset regardless of whether any tweets were found.
* Backup, no exception (scraper.py:1421-1426): reset only when tweets were
  found; otherwise nothing changes.
* `PageLoadError` (scraper.py:1525-1526): increment the counter, set the
  wait to `min(1800, base * 2 ** count)`, then at three or more
  consecutive errors attempt the identity switch (scraper.py:1535-1566):
  from the primary, a successful switch to the backup resets the counter
  and the cadence; a failed or unavailable switch leaves the backoff in
  place; from the backup, the backup browser is reinitialised (the counter
  and wait keep their backed-off values) and a failed reinitialisation
  clears `using_backup_account`. -/
def cycleStep (base : Nat) (backupAvailable switchOk : Bool)
    (st : MonState) (o : CycleOutcome) : MonState :=
  match o with
  | .success => { st with count := 0, wait := base }
  | .partialEmpty =>
    if st.usingBackup then st
    else { st with count := 0, wait := base }
  | .timeout | .error =>
    let c := st.count + 1
    let w := min 1800 (base * 2 ^ c)
    if 3 ≤ c then
      if !st.usingBackup then
        if backupAvailable && switchOk then ⟨true, 0, base⟩
        else ⟨false, c, w⟩
      else
        if switchOk then ⟨true, c, w⟩ else ⟨false, c, w⟩
    else
      { st with count := c, wait := w }

/-- `n` consecutive failure outcomes starting from the given state. -/
def iterateFailures (base : Nat) (backupAvailable switchOk : Bool)
    (st : MonState) : Nat → MonState
  | 0 => st
  | n + 1 =>
    cycleStep base backupAvailable switchOk
      (iterateFailures base backupAvailable switchOk st n) .timeout

/-! ### Identity pool

`MultiAccountScraper` (multi_account_scraper.py).  An account carries its
activation flag, cooldown deadline and last-use time
(multi_account_scraper.py:30-32); `get_best_account`
(multi_account_scraper.py:309-318) returns the least-recently-used active
account that is not cooling down. -/

structure Account where
  is_active : Bool
  rate_limited_until : Option Nat
  last_used : Option Nat
  deriving Repr, DecidableEq

/-- `acc.is_active and (not acc.rate_limited_until or
time.time() >= acc.rate_limited_until)`.  Python treats both `None` and a
zero timestamp as "no cooldown"; a zero deadline also satisfies
`now >= 0`, so the `Option` match is faithful. -/
def accountAvailable (now : Nat) (a : Account) : Bool :=
  a.is_active &&
    (match a.rate_limited_until with
     | none => true
     | some t => t ≤ now)

/-- `x.last_used or 0`. -/
def lastUsedKey (a : Account) : Nat := a.last_used.getD 0

/-- Index of `min(available, key=...)` among the account list: the first
available account with the minimal key (Python's `min` keeps the first of
equal keys). -/
def bestIndexAux (now : Nat) : List Account → Nat → Option (Nat × Account) →
    Option Nat
  | [], _, best => best.map (·.1)
  | a :: rest, i, best =>
    if accountAvailable now a then
      match best with
      | none => bestIndexAux now rest (i + 1) (some (i, a))
      | some (j, b) =>
        if lastUsedKey a < lastUsedKey b then
          bestIndexAux now rest (i + 1) (some (i, a))
        else bestIndexAux now rest (i + 1) (some (j, b))
    else bestIndexAux now rest (i + 1) best

def bestIndex (now : Nat) (accounts : List Account) : Option Nat :=
  bestIndexAux now accounts 0 none

/-- `get_best_account` (multi_account_scraper.py:309-318). -/
def get_best_account (now : Nat) (accounts : List Account) : Option Account :=
  match bestIndex now accounts with
  | none => none
  | some i => accounts[i]?

/-- State change `scrape_tweets` applies to the account it runs on
(multi_account_scraper.py:243-257): stamp `last_used`; an empty result sets
a 5-minute cooldown, a rate-limit exception a 10-minute one. -/
def scrapeEffect (now : Nat) (foundTweets rateLimitError : Bool)
    (a : Account) : Account :=
  if rateLimitError then { a with rate_limited_until := some (now + 600) }
  else
    let a' := { a with last_used := some now }
    if foundTweets then a' else { a' with rate_limited_until := some (now + 300) }

/-- `scrape_with_rotation` (multi_account_scraper.py:320-327): pick the
best account and run the scrape on it; only the selected account's record
is touched. -/
def scrape_with_rotation (now : Nat) (foundTweets rateLimitError : Bool)
    (accounts : List Account) : List Account :=
  match bestIndex now accounts with
  | none => accounts
  | some i =>
    match accounts[i]? with
    | none => accounts
    | some a => accounts.set i (scrapeEffect now foundTweets rateLimitError a)

/-! ### Persistence

`save_last_tweet_id` (scraper.py:767-770) and the history writes
(scraper.py:1494-1495, 1799-1800) all use `with open(path, "w")` followed
by a write: the visible file is truncated in place and then rewritten.  We
model the visible content of the file after each primitive step of a write
strategy. -/

inductive FsOp
  | truncate
  | writeContent (s : String)
  deriving Repr, DecidableEq

def applyFsOp (_visible : String) : FsOp → String
  | .truncate => ""
  | .writeContent s => s

/-- `with open(path, "w") as f: f.write(data)` — truncate, then write. -/
def writeInPlace (data : String) : List FsOp :=
  [.truncate, .writeContent data]

/-- Every content the visible file takes on during a write, interruption
points included. -/
def visibleStates (old : String) (ops : List FsOp) : List String :=
  ops.scanl applyFsOp old

/-- A write is all-or-nothing when an interruption at any point leaves
either the old or the new content visible. -/
def AllOrNothing (old new : String) (ops : List FsOp) : Prop :=
  ∀ s ∈ visibleStates old ops, s = old ∨ s = new

instance (old new : String) (ops : List FsOp) :
    Decidable (AllOrNothing old new ops) := by
  unfold AllOrNothing; infer_instance

/-! ### Concrete scenario inputs (spec §8 scenarios) -/

/-- A minimal valid fragment: id and text present, everything else absent. -/
def simpleFragment (tid txt : String) : RawTweet :=
  ⟨some tid,
   some ⟨some txt, none, none, none, none, none, none, none, none, none, [], none⟩,
   none, none, none, none, none, [], []⟩

/-- The item `simpleFragment` extracts to. -/
def simpleItem (tid txt : String) : TweetData :=
  ⟨tid, none, txt, none, UserData.initial, ⟨0, 0, 0, 0, 0, "0"⟩,
   none, ⟨none, none, none⟩⟩

def simpleEntry (tid txt : String) : Entry :=
  ⟨"tweet-" ++ tid, some (simpleFragment tid txt)⟩

/-- A fragment with an id but no text: rejected by the extractor. -/
def textlessEntry (tid : String) : Entry :=
  ⟨"tweet-" ++ tid, some ⟨some tid, some LegacyData.empty,
    none, none, none, none, none, [], []⟩⟩

/-- A buffer sequence with a single pass containing one XHR call with one
instruction holding the given entries. -/
def onePass (es : List Entry) : List (List XhrCall) := [[some [some es]]]

/-! ## Theorems -/

/-! ### Helper lemmas -/

theorem canonicalId_inj {s t : String} (hs : CanonicalId s) (ht : CanonicalId t)
    (h : idNum s = idNum t) : s = t := by
  rw [hs, ht, h]

theorem wmLe_refl (a : Option String) : wmLe a a := by
  cases a <;> simp [wmLe]

theorem advanceWatermark_mono (cur cand : Option String) :
    wmLe cur (advanceWatermark cur cand) := by
  cases cand with
  | none => exact wmLe_refl cur
  | some c =>
    cases cur with
    | none => by_cases h : c = "" <;> simp [advanceWatermark, h, wmLe]
    | some w =>
      by_cases h : c = ""
      · simp [advanceWatermark, h, wmLe_refl]
      · by_cases h2 : idNum w < idNum c <;>
          simp [advanceWatermark, h, h2, wmLe, le_of_lt, wmLe_refl]

theorem advanceWatermark_foldl_mono (cur : Option String)
    (cands : List (Option String)) :
    wmLe cur (cands.foldl advanceWatermark cur) := by
  induction cands generalizing cur with
  | nil => exact wmLe_refl cur
  | cons c cs ih =>
    have h1 := advanceWatermark_mono cur c
    have h2 := ih (advanceWatermark cur c)
    simp only [List.foldl_cons]
    cases cur with
    | none => trivial
    | some w =>
      cases hmid : advanceWatermark (some w) c with
      | none => rw [hmid] at h1; exact absurd h1 (by simp [wmLe])
      | some m =>
        rw [hmid] at h1 h2
        cases hfin : cs.foldl advanceWatermark (some m) with
        | none => rw [hfin] at h2; exact absurd h2 (by simp [wmLe])
        | some f =>
          rw [hfin] at h2
          simpa [wmLe] using le_trans h1 h2

theorem advanceWatermark_ne_imp {cur cand : Option String}
    (h : advanceWatermark cur cand ≠ cur) :
    ∃ c, cand = some c ∧ ∀ w, cur = some w → idNum w < idNum c := by
  cases cand with
  | none => simp [advanceWatermark] at h
  | some c =>
    refine ⟨c, rfl, ?_⟩
    intro w hw
    subst hw
    by_cases hc : c = ""
    · simp [advanceWatermark, hc] at h
    · by_cases hlt : idNum w < idNum c
      · exact hlt
      · simp [advanceWatermark, hc, hlt] at h

/-! ### C1: watermark monotonicity and max semantics -/

/-- C1.  The watermark is monotonically non-decreasing: one cycle's update
never lowers it, and over any sequence of cycle candidates the stored
watermark after N cycles is at least the watermark after N-1 cycles.  A
`None` candidate is a no-op, the update fires only for a candidate
strictly greater numerically, and for present values
`advanceWatermark(current, candidate)` is the numeric maximum. -/
theorem C1_watermark_monotone :
    (∀ cur cand, wmLe cur (advanceWatermark cur cand)) ∧
    (∀ (cur : Option String) (cands : List (Option String)),
      wmLe cur (cands.foldl advanceWatermark cur)) ∧
    (∀ cur, advanceWatermark cur none = cur) ∧
    (∀ w c, c ≠ "" →
      (advanceWatermark (some w) (some c)
          = some (if idNum w < idNum c then c else w)) ∧
      (∀ r, advanceWatermark (some w) (some c) = some r →
        idNum r = max (idNum w) (idNum c))) ∧
    (∀ cur cand, advanceWatermark cur cand ≠ cur →
      ∃ c, cand = some c ∧ ∀ w, cur = some w → idNum w < idNum c) := by
  refine ⟨advanceWatermark_mono, advanceWatermark_foldl_mono,
    fun cur => rfl, ?_, fun _ _ => advanceWatermark_ne_imp⟩
  intro w c hc
  constructor
  · by_cases hlt : idNum w < idNum c <;> simp [advanceWatermark, hc, hlt]
  · intro r hr
    by_cases hlt : idNum w < idNum c <;>
      simp [advanceWatermark, hc, hlt] at hr <;> subst hr <;> omega

/-- Witness for C1 at concrete inputs: watermark "102", candidate "103". -/
theorem C1_watermark_monotone_witness :
    advanceWatermark (some "102") (some "103") = some "103" ∧
    idNum "103" = max (idNum "102") (idNum "103") ∧
    wmLe (some "102") (advanceWatermark (some "102") (some "103")) := by
  refine ⟨?_, ?_, ?_⟩
  · exact ((C1_watermark_monotone.2.2.2.1 "102" "103" (by decide)).1).trans
      (by decide)
  · exact (C1_watermark_monotone.2.2.2.1 "102" "103" (by decide)).2 "103"
      (by decide)
  · exact C1_watermark_monotone.1 (some "102") (some "103")

/-! ### C3: backoff growth -/

/-- Closed form of a run of consecutive `Timeout` outcomes with no backup
account configured, starting from the normal state. -/
theorem iterateFailures_no_backup (base : Nat) (n : Nat) :
    iterateFailures base false false ⟨false, 0, base⟩ n
      = ⟨false, n, if n = 0 then base else min 1800 (base * 2 ^ n)⟩ := by
  induction n with
  | zero => rfl
  | succ m ih =>
    simp only [iterateFailures, ih, cycleStep]
    by_cases h : 3 ≤ m + 1 <;> simp [h]

/-- C3 counterexample.  With `baseInterval = 60` and the failure counter at
0, the wait after the first `Timeout` is `min(1800, 60 * 2^1) = 120`, not
60 as the claimed sequence `60, 120, 240` requires: the code increments
`consecutive_error_count` before computing the wait
(scraper.py:1525-1526). -/
theorem C3_counterexample :
    (cycleStep 60 false false ⟨false, 0, 60⟩ .timeout).wait = 120 ∧
    ¬ (cycleStep 60 false false ⟨false, 0, 60⟩ .timeout).wait = 60 := by
  decide

/-- C3 amended.  With `baseInterval = 60`, three consecutive `Timeout`
outcomes from the normal state (failure counter 0, no backup account
available) produce wait times `120, 240, 480`; the wait after the n-th
consecutive failure equals `min(maxWait, baseInterval * 2^n)` with
`maxWait = 1800`; and a `Success` immediately afterwards resets the next
wait to 60 and the counter to 0. -/
theorem C3_backoff_growth :
    (∀ n : Nat, 1 ≤ n →
      (iterateFailures 60 false false ⟨false, 0, 60⟩ n).wait
        = min 1800 (60 * 2 ^ n)) ∧
    ((iterateFailures 60 false false ⟨false, 0, 60⟩ 1).wait = 120 ∧
     (iterateFailures 60 false false ⟨false, 0, 60⟩ 2).wait = 240 ∧
     (iterateFailures 60 false false ⟨false, 0, 60⟩ 3).wait = 480) ∧
    (cycleStep 60 false false
        (iterateFailures 60 false false ⟨false, 0, 60⟩ 3) .success
      = ⟨false, 0, 60⟩) := by
  refine ⟨?_, by decide, by decide⟩
  intro n hn
  rw [iterateFailures_no_backup]
  simp [Nat.pos_iff_ne_zero.mp hn]

/-- Witness for C3's amended formula at `n = 3`:
`min(1800, 60 * 2^3) = 480`. -/
theorem C3_backoff_growth_witness :
    (iterateFailures 60 false false ⟨false, 0, 60⟩ 3).wait
      = min 1800 (60 * 2 ^ 3) :=
  C3_backoff_growth.1 3 (by decide)

/-! ### C4: zero-item cycles -/

/-- C4 counterexample.  A cycle that completes without exception but finds
zero new items on the primary account resets `consecutive_error_count` to
0 and restores the base interval (scraper.py:1399-1401) — it does not
increment the counter as claimed. -/
theorem C4_counterexample :
    (cycleStep 60 true true ⟨false, 2, 240⟩ .partialEmpty).count = 0 ∧
    ¬ (cycleStep 60 true true ⟨false, 2, 240⟩ .partialEmpty).count = 3 ∧
    ¬ (cycleStep 60 true true ⟨false, 2, 240⟩ .partialEmpty).count = 2 := by
  decide

/-- C4 amended.  A cycle that completes without exception but yields zero
new items is treated on the primary account exactly like a success (the
counter resets to 0 and the wait returns to the base interval,
scraper.py:1399-1401); on the backup account it leaves the counter and
wait unchanged (scraper.py:1425-1426).  In neither case is the counter
incremented, and by itself such a cycle never flips the active identity. -/
theorem C4_partial_empty :
    ∀ (base : Nat) (ba so : Bool) (c w : Nat),
      cycleStep base ba so ⟨false, c, w⟩ .partialEmpty = ⟨false, 0, base⟩ ∧
      cycleStep base ba so ⟨true, c, w⟩ .partialEmpty = ⟨true, c, w⟩ := by
  intro base ba so c w
  exact ⟨rfl, rfl⟩

/-! ### C9: persistence is not atomic -/

/-- C9 counterexample.  `save_last_tweet_id` (scraper.py:767-770) and the
history writes (scraper.py:1494-1495, 1799-1800) open the visible file in
`"w"` mode, which truncates it in place before writing: an interruption
between the truncation and the write leaves an empty visible file, so the
write of watermark "101" over "100" is not all-or-nothing. -/
theorem C9_counterexample :
    ¬ AllOrNothing "100" "101" (writeInPlace "101") := by
  decide

/-- C9 amended.  Persisted writes are performed by truncating the visible
file in place and rewriting it (`open(path, "w")`), not via a temporary
file with an atomic rename: for any distinct non-empty old and new
contents the visible file passes through the truncated empty state, which
is neither the old nor the new record. -/
theorem C9_write_not_atomic :
    ∀ old new : String, old ≠ "" → new ≠ "" →
      visibleStates old (writeInPlace new) = [old, "", new] ∧
      ¬ AllOrNothing old new (writeInPlace new) := by
  intro old new hold hnew
  refine ⟨rfl, ?_⟩
  intro h
  rcases h "" (by simp [visibleStates, writeInPlace, applyFsOp]) with h1 | h1
  · exact hold h1.symm
  · exact hnew h1.symm

/-- Witness for C9's amended statement at concrete contents. -/
theorem C9_write_not_atomic_witness :
    visibleStates "100" (writeInPlace "101") = ["100", "", "101"] ∧
    ¬ AllOrNothing "100" "101" (writeInPlace "101") :=
  C9_write_not_atomic "100" "101" (by decide) (by decide)

/-! ### C5: extractor null-safety -/

/-- C5.  Extraction returns nothing — never a partially-filled item — when
the fragment is absent, when the source-id field (`rest_id`) is absent, or
when the text field (`legacy.full_text`) is absent; and whenever it does
return an item, every numeric engagement counter is the fragment's value
with 0 as the default for an absent counter (and the view counter defaults
to the string "0"), so a missing counter never fails the item. -/
theorem C5_extractor_null_safety :
    (extract_tweet_metadata none = none) ∧
    (∀ rt : RawTweet, rt.rest_id = none →
      extract_tweet_metadata (some rt) = none) ∧
    (∀ rt : RawTweet, (rt.legacy.getD LegacyData.empty).full_text = none →
      extract_tweet_metadata (some rt) = none) ∧
    (∀ (rt : RawTweet) (t : TweetData), extract_tweet_metadata (some rt) = some t →
      t.stats.retweet_count = ((rt.legacy.getD LegacyData.empty).retweet_count).getD 0 ∧
      t.stats.reply_count = ((rt.legacy.getD LegacyData.empty).reply_count).getD 0 ∧
      t.stats.like_count = ((rt.legacy.getD LegacyData.empty).favorite_count).getD 0 ∧
      t.stats.quote_count = ((rt.legacy.getD LegacyData.empty).quote_count).getD 0 ∧
      t.stats.bookmark_count = ((rt.legacy.getD LegacyData.empty).bookmark_count).getD 0 ∧
      t.stats.view_count = rt.viewsCount.getD "0") := by
  refine ⟨rfl, ?_, ?_, ?_⟩
  · intro rt h
    simp [extract_tweet_metadata, h]
  · intro rt h
    rcases hid : rt.rest_id with _ | tid
    · simp [extract_tweet_metadata, hid]
    · by_cases ht : tid = "" <;> simp [extract_tweet_metadata, hid, ht, h]
  · intro rt t h
    simp only [extract_tweet_metadata] at h
    split at h
    · exact Option.noConfusion h
    · split at h
      · exact Option.noConfusion h
      · split at h
        · exact Option.noConfusion h
        · split at h
          · exact Option.noConfusion h
          · split at h
            · exact Option.noConfusion h
            · cases h
              simp [mkStats]

/-- Witness for C5: a fragment with id "7", text "hi" and no engagement
counters extracts to an item whose counters are all 0. -/
theorem C5_extractor_null_safety_witness :
    extract_tweet_metadata (some
      ⟨some "7",
       some ⟨some "hi", none, none, none, none, none, none, none, none, none, [], none⟩,
       none, none, none, none, none, [], []⟩) =
      some ⟨"7", none, "hi", none, UserData.initial, ⟨0, 0, 0, 0, 0, "0"⟩,
        none, ⟨none, none, none⟩⟩ ∧
    (⟨0, 0, 0, 0, 0, "0"⟩ : Stats).retweet_count = 0 := by
  constructor
  · rfl
  · have h := (C5_extractor_null_safety.2.2.2
      ⟨some "7",
       some ⟨some "hi", none, none, none, none, none, none, none, none, none, [], none⟩,
       none, none, none, none, none, [], []⟩
      ⟨"7", none, "hi", none, UserData.initial, ⟨0, 0, 0, 0, 0, "0"⟩,
        none, ⟨none, none, none⟩⟩ rfl)
    exact h.1

/-! ### C8: identity switch after three consecutive failures -/

/-- C8.  When the failure counter reaches 3 on the primary identity:
with a backup identity available and the switch succeeding, the controller
moves to the backup, resets the failure counter to 0 and resumes the
normal cadence (scraper.py:1541-1547); with no other identity available
(or a failed switch) it remains in backoff on the current identity with
the counter and backed-off wait in place (scraper.py:1548-1551).  In the
pool, `get_best_account` skips a rate-limited account and selects the
other available one (multi_account_scraper.py:309-318), and a scrape cycle
run through `scrape_with_rotation` mutates only the selected account's
record — the idle account's state (its cooldown and usage fields) is not
touched while idle. -/
theorem C8_identity_switch :
    (∀ (base c w : Nat), 2 ≤ c →
      cycleStep base true true ⟨false, c, w⟩ .timeout = ⟨true, 0, base⟩) ∧
    (∀ (base c w : Nat) (so : Bool), 2 ≤ c →
      cycleStep base false so ⟨false, c, w⟩ .timeout
        = ⟨false, c + 1, min 1800 (base * 2 ^ (c + 1))⟩ ∧
      cycleStep base true false ⟨false, c, w⟩ .timeout
        = ⟨false, c + 1, min 1800 (base * 2 ^ (c + 1))⟩) ∧
    (∀ (now : Nat) (A B : Account),
      accountAvailable now A = false → accountAvailable now B = true →
      get_best_account now [A, B] = some B) ∧
    (∀ (now : Nat) (found rle : Bool) (A B : Account),
      accountAvailable now A = false → accountAvailable now B = true →
      scrape_with_rotation now found rle [A, B]
        = [A, scrapeEffect now found rle B]) := by
  refine ⟨?_, ?_, ?_, ?_⟩
  · intro base c w hc
    simp [cycleStep, Nat.succ_le_succ hc]
  · intro base c w so hc
    constructor <;> simp [cycleStep, Nat.succ_le_succ hc]
  · intro now A B hA hB
    simp [get_best_account, bestIndex, bestIndexAux, hA, hB]
  · intro now found rle A B hA hB
    simp [scrape_with_rotation, bestIndex, bestIndexAux, hA, hB]

/-- Witness for C8: counter at 2 (third failure incoming), backup idle. -/
theorem C8_identity_switch_witness :
    cycleStep 60 true true ⟨false, 2, 240⟩ .timeout = ⟨true, 0, 60⟩ ∧
    get_best_account 1000 [⟨true, some 2000, some 10⟩, ⟨true, none, none⟩]
      = some ⟨true, none, none⟩ ∧
    scrape_with_rotation 1000 true false
        [⟨true, some 2000, some 10⟩, ⟨true, none, none⟩]
      = [⟨true, some 2000, some 10⟩,
         scrapeEffect 1000 true false ⟨true, none, none⟩] := by
  refine ⟨C8_identity_switch.1 60 2 240 (by decide), ?_, ?_⟩
  · exact C8_identity_switch.2.2.1 1000 _ _ (by decide) (by decide)
  · exact C8_identity_switch.2.2.2 1000 true false _ _ (by decide) (by decide)

/-! ### Cycle invariant lemmas (shared by the fetch-cycle claims) -/

theorem extract_rest_id {tc : RawTweet} {t : TweetData}
    (h : extract_tweet_metadata (some tc) = some t) :
    tc.rest_id = some t.id ∧ t.id ≠ "" := by
  simp only [extract_tweet_metadata] at h
  split at h
  · exact Option.noConfusion h
  · rename_i tid heq
    split at h
    · exact Option.noConfusion h
    · rename_i hne
      split at h
      · exact Option.noConfusion h
      · split at h
        · exact Option.noConfusion h
        · split at h
          · exact Option.noConfusion h
          · cases h
            exact ⟨heq, hne⟩

theorem processEntry_pres (last : Option String) (limit : Option Nat)
    (st : ProcState) (e : Entry) (h : CycleInv last st) :
    CycleInv last (processEntry last limit st e) ∧
      st.seen ⊆ (processEntry last limit st e).seen := by
  obtain ⟨hnd, hseen, hnew⟩ := h
  unfold processEntry
  split
  · exact ⟨⟨hnd, hseen, hnew⟩, fun x hx => hx⟩
  split
  · exact ⟨⟨hnd, hseen, hnew⟩, fun x hx => hx⟩
  rename_i tc
  split
  · exact ⟨⟨hnd, hseen, hnew⟩, fun x hx => hx⟩
  rename_i tid hid
  split
  · exact ⟨⟨hnd, hseen, hnew⟩, fun x hx => hx⟩
  rename_i htid
  split
  · exact ⟨⟨hnd, hseen, hnew⟩, fun x hx => hx⟩
  rename_i hnotseen
  split
  · -- watermark guard passed
    rename_i hguard
    split
    · -- extraction succeeded: the item is appended
      rename_i t hx
      have hid' := extract_rest_id hx
      rw [hid] at hid'
      have htid' : t.id = tid := by
        cases hid'.1; rfl
      constructor
      · refine ⟨?_, ?_, ?_⟩
        · simp only [List.map_append, List.map_cons, List.map_nil]
          rw [List.nodup_append]
          refine ⟨hnd, List.nodup_singleton _, ?_⟩
          intro x hxmem
          simp only [List.mem_singleton]
          intro hxeq
          subst hxeq
          rw [htid'] at hxmem
          obtain ⟨u, hu, huid⟩ := List.mem_map.mp hxmem
          exact hnotseen (huid ▸ hseen u hu)
        · intro u hu
          simp only [List.mem_append, List.mem_singleton] at hu
          rcases hu with hu | hu
          · exact List.mem_cons_of_mem _ (hseen u hu)
          · subst hu
            rw [htid']
            exact List.mem_cons_self _ _
        · intro u hu l hl
          simp only [List.mem_append, List.mem_singleton] at hu
          rcases hu with hu | hu
          · exact hnew u hu l hl
          · subst hu hl
            rw [htid']
            simpa using hguard
      · intro x hx2
        exact List.mem_cons_of_mem _ hx2
    · -- extraction failed: only the seen set grows
      constructor
      · refine ⟨hnd, ?_, hnew⟩
        intro u hu
        exact List.mem_cons_of_mem _ (hseen u hu)
      · intro x hx2
        exact List.mem_cons_of_mem _ hx2
  · -- at or below the watermark: only the seen set grows
    constructor
    · refine ⟨hnd, ?_, hnew⟩
      intro u hu
      exact List.mem_cons_of_mem _ (hseen u hu)
    · intro x hx2
      exact List.mem_cons_of_mem _ hx2

theorem procFold_pres {α : Type} {last : Option String}
    {f : ProcState → α → ProcState}
    (hf : ∀ st a, CycleInv last st →
      CycleInv last (f st a) ∧ st.seen ⊆ (f st a).seen) :
    ∀ (l : List α) (st : ProcState), CycleInv last st →
      CycleInv last (procFold f st l) ∧ st.seen ⊆ (procFold f st l).seen := by
  intro l
  induction l with
  | nil => exact fun st h => ⟨h, fun x hx => hx⟩
  | cons a as ih =>
    intro st h
    unfold procFold
    split
    · exact ⟨h, fun x hx => hx⟩
    · obtain ⟨h1, hs1⟩ := hf st a h
      obtain ⟨h2, hs2⟩ := ih (f st a) h1
      exact ⟨h2, fun x hx => hs2 (hs1 hx)⟩

theorem processInstruction_pres (last : Option String) (limit : Option Nat)
    (st : ProcState) (instr : Instruction) (h : CycleInv last st) :
    CycleInv last (processInstruction last limit st instr) ∧
      st.seen ⊆ (processInstruction last limit st instr).seen := by
  cases instr with
  | none => exact ⟨h, fun x hx => hx⟩
  | some entries =>
    exact procFold_pres (fun st' e => processEntry_pres last limit st' e)
      entries st h

theorem processXhr_pres (last : Option String) (limit : Option Nat)
    (st : ProcState) (xhr : XhrCall) (h : CycleInv last st) :
    CycleInv last (processXhr last limit st xhr) ∧
      st.seen ⊆ (processXhr last limit st xhr).seen := by
  cases xhr with
  | none => exact ⟨h, fun x hx => hx⟩
  | some instrs =>
    exact procFold_pres
      (fun st' i => processInstruction_pres last limit st' i) instrs st h

theorem processXhrCalls_pres (last : Option String) (limit : Option Nat)
    (st : ProcState) (xhrs : List XhrCall) (h : CycleInv last st) :
    CycleInv last (processXhrCalls last limit st xhrs) ∧
      st.seen ⊆ (processXhrCalls last limit st xhrs).seen :=
  procFold_pres (fun st' x => processXhr_pres last limit st' x) xhrs st h

theorem scrapeLoop_pres (last : Option String) (limit : Option Nat) :
    ∀ (bufs : List (List XhrCall)) (st : ProcState) (overall : Option String)
      (p : Nat), CycleInv last st →
      CycleInv last (scrapeLoop last limit st overall p bufs).1 := by
  intro bufs
  induction bufs with
  | nil => exact fun st overall p h => h
  | cons buf rest ih =>
    intro st overall p h
    have hreset : CycleInv last
        { st with batchNew := [], newestBatch := none, limitHit := false } := h
    have hstep := (processXhrCalls_pres last limit _ buf hreset).1
    unfold scrapeLoop
    dsimp only
    split
    · exact hstep
    · split
      · exact hstep
      · exact ih _ _ _ hstep

/-- Full invariant at the output of `scrape_list`: distinct ids, all
strictly above the incoming watermark. -/
theorem scrape_list_inv (bufs : List (List XhrCall)) (last : Option String)
    (limit : Option Nat) :
    (((scrape_list bufs last limit).items.map (·.id)).Nodup) ∧
    (∀ t ∈ (scrape_list bufs last limit).items, ∀ l, last = some l →
      idNum l < idNum t.id) := by
  have hinv : CycleInv last (scrapeRaw bufs last limit).1 := by
    apply scrapeLoop_pres
    exact ⟨List.nodup_nil, by simp, by simp⟩
  obtain ⟨hnd, _, hnew⟩ := hinv
  set acc := (scrapeRaw bufs last limit).1.acc with hacc
  have hperm : List.Perm (sortByIdDesc acc) acc := List.perm_insertionSort _ acc
  have hsub : List.Sublist (scrape_list bufs last limit).items
      (sortByIdDesc acc) := by
    show List.Sublist (trimToLimit limit (sortByIdDesc acc)) (sortByIdDesc acc)
    unfold trimToLimit
    split
    · split
      · exact List.take_sublist _ _
      · exact List.Sublist.refl _
    · exact List.Sublist.refl _
  constructor
  · have h1 : ((sortByIdDesc acc).map (·.id)).Nodup :=
      ((hperm.map (·.id)).nodup_iff).mpr hnd
    exact h1.sublist (hsub.map (·.id))
  · intro t ht l hl
    exact hnew t (hperm.mem_iff.mp (hsub.subset ht)) l hl

/-! ### C6: per-cycle dedup and watermark filter -/

/-- C6.  For every fragment stream, incoming watermark and number of
passes, one fetch cycle returns at most one item per id (the per-cycle
seen-id set discards a duplicate id) and only items whose numeric id is
strictly greater than the incoming watermark. -/
theorem C6_cycle_dedup_watermark :
    ∀ (bufs : List (List XhrCall)) (last : Option String) (limit : Option Nat),
      ((scrape_list bufs last limit).items.map (·.id)).Nodup ∧
      ∀ t ∈ (scrape_list bufs last limit).items, ∀ l, last = some l →
        idNum l < idNum t.id :=
  scrape_list_inv

/-- Witness for C6 on the spec §8 scenario: one pass carrying ids 101,
104 and a duplicate of 101, with watermark 100.  The cycle yields exactly
one record for 101 and one for 104, with distinct ids all above the
watermark. -/
theorem C6_cycle_dedup_watermark_witness :
    (scrape_list (onePass
        [simpleEntry "101" "first", simpleEntry "104" "new",
         simpleEntry "101" "dup"]) (some "100") none).items
      = [simpleItem "104" "new", simpleItem "101" "first"] ∧
    (((scrape_list (onePass
        [simpleEntry "101" "first", simpleEntry "104" "new",
         simpleEntry "101" "dup"]) (some "100") none).items.map (·.id)).Nodup) ∧
    idNum "100" < idNum "104" := by
  refine ⟨by decide, (C6_cycle_dedup_watermark (onePass
    [simpleEntry "101" "first", simpleEntry "104" "new",
     simpleEntry "101" "dup"]) (some "100") none).1, ?_⟩
  exact (C6_cycle_dedup_watermark (onePass
    [simpleEntry "101" "first", simpleEntry "104" "new",
     simpleEntry "101" "dup"]) (some "100") none).2
    (simpleItem "104" "new") (by decide) "100" rfl

/-! ### C10: rejected fragments still advance the returned newest id -/

/-- C10.  A fragment whose id is above the watermark but which the
extractor rejects (text absent) still advances the cycle's returned
newest id (scraper.py:1013-1014 runs whether or not extraction succeeded):
concretely, a pass with valid id 103 and textless id 104 over watermark
100 returns only the 103 item while reporting newest id 104, which is
strictly greater than every returned id.  And any id at or below the
watermark — hence the rejected id on all later cycles, once the watermark
has advanced past it — is never delivered. -/
theorem C10_rejected_advances_newest :
    ((scrape_list (onePass [simpleEntry "103" "ok", textlessEntry "104"])
        (some "100") none).items = [simpleItem "103" "ok"] ∧
     (scrape_list (onePass [simpleEntry "103" "ok", textlessEntry "104"])
        (some "100") none).newest = some "104" ∧
     ∀ t ∈ (scrape_list (onePass [simpleEntry "103" "ok", textlessEntry "104"])
        (some "100") none).items, idNum t.id < idNum "104") ∧
    (∀ (bufs : List (List XhrCall)) (limit : Option Nat) (w s : String),
      idNum s ≤ idNum w →
      s ∉ (scrape_list bufs (some w) limit).items.map (·.id)) := by
  constructor
  · exact ⟨by decide, by decide, by decide⟩
  · intro bufs limit w s hs hmem
    obtain ⟨t, ht, hts⟩ := List.mem_map.mp hmem
    have := (scrape_list_inv bufs (some w) limit).2 t ht w rfl
    rw [hts] at this
    omega

/-- Witness for C10's skip property: id "99" is at most the watermark
"100" and is absent from the cycle's output. -/
theorem C10_rejected_advances_newest_witness :
    "99" ∉ (scrape_list (onePass [simpleEntry "103" "ok", textlessEntry "104"])
      (some "100") none).items.map (·.id) :=
  C10_rejected_advances_newest.2
    (onePass [simpleEntry "103" "ok", textlessEntry "104"]) none "100" "99"
    (by decide)

/-! ### C7: early-stop lemmas -/

theorem limitReached_zero (limit : Option Nat) : limitReached limit 0 = false := by
  cases limit with
  | none => rfl
  | some l =>
    by_cases h : l = 0 <;> simp [limitReached, h, Nat.le_zero]

theorem procFold_pres_prop {α : Type} (P : ProcState → Prop)
    {f : ProcState → α → ProcState} (hf : ∀ st a, P st → P (f st a)) :
    ∀ (l : List α) (st : ProcState), P st → P (procFold f st l) := by
  intro l
  induction l with
  | nil => exact fun st h => h
  | cons a as ih =>
    intro st h
    unfold procFold
    split
    · exact h
    · exact ih (f st a) (hf st a h)

theorem processEntry_batchAcc (last : Option String) (limit : Option Nat)
    (st : ProcState) (e : Entry) (h : BatchAccInv limit st) :
    BatchAccInv limit (processEntry last limit st e) := by
  obtain ⟨hacc, hlh⟩ := h
  unfold processEntry
  split
  · exact ⟨hacc, hlh⟩
  split
  · exact ⟨hacc, hlh⟩
  split
  · exact ⟨hacc, hlh⟩
  split
  · exact ⟨hacc, hlh⟩
  split
  · exact ⟨hacc, hlh⟩
  split
  · split
    · exact ⟨by simp [hacc], fun h2 => h2⟩
    · exact ⟨hacc, fun h2 => h2⟩
  · exact ⟨hacc, hlh⟩

theorem processXhrCalls_batchAcc (last : Option String) (limit : Option Nat)
    (st : ProcState) (xhrs : List XhrCall) (h : BatchAccInv limit st) :
    BatchAccInv limit (processXhrCalls last limit st xhrs) := by
  refine procFold_pres_prop (BatchAccInv limit) ?_ xhrs st h
  intro st' x h'
  cases x with
  | none => exact h'
  | some instrs =>
    refine procFold_pres_prop (BatchAccInv limit) ?_ instrs st' h'
    intro st'' i h''
    cases i with
    | none => exact h''
    | some entries =>
      exact procFold_pres_prop (BatchAccInv limit)
        (fun s e hs => processEntry_batchAcc last limit s e hs) entries st'' h''

/-- A pass started from the empty cycle state that extracts nothing cannot
have hit the limit. -/
theorem firstPass_empty_no_limitHit (last : Option String) (limit : Option Nat)
    (buf : List XhrCall)
    (hempty : (processXhrCalls last limit ⟨[], [], [], none, false⟩ buf).batchNew = []) :
    (processXhrCalls last limit ⟨[], [], [], none, false⟩ buf).limitHit = false := by
  have h := processXhrCalls_batchAcc last limit ⟨[], [], [], none, false⟩ buf
    ⟨rfl, fun h2 => Bool.noConfusion h2⟩
  obtain ⟨hacc, hlh⟩ := h
  by_contra hcon
  rw [Bool.not_eq_false] at hcon
  have := hlh hcon
  rw [hacc, hempty, List.length_nil, limitReached_zero] at this
  exact Bool.noConfusion this

/-- With `limit = None` the limit flag never fires. -/
theorem processXhrCalls_noLimit (last : Option String) (st : ProcState)
    (xhrs : List XhrCall) (h : st.limitHit = false) :
    (processXhrCalls last none st xhrs).limitHit = false := by
  refine procFold_pres_prop (fun s => s.limitHit = false) ?_ xhrs st h
  intro st' x h'
  cases x with
  | none => exact h'
  | some instrs =>
    refine procFold_pres_prop (fun s => s.limitHit = false) ?_ instrs st' h'
    intro st'' i h''
    cases i with
    | none => exact h''
    | some entries =>
      refine procFold_pres_prop (fun s => s.limitHit = false) ?_ entries st'' h''
      intro s e hs
      unfold processEntry
      split
      · exact hs
      split
      · exact hs
      split
      · exact hs
      split
      · exact hs
      split
      · exact hs
      split
      · split
        · exact rfl
        · exact rfl
      · exact hs

/-- With `limit = None` and either some passes already run or no
watermark, the loop runs through every remaining buffer. -/
theorem scrapeLoop_noLimit_length (last : Option String) :
    ∀ (bufs : List (List XhrCall)) (st : ProcState) (overall : Option String)
      (p : Nat), (1 ≤ p ∨ last = none) →
      (scrapeLoop last none st overall p bufs).2.2 = p + bufs.length := by
  intro bufs
  induction bufs with
  | nil => intro st overall p _; simp [scrapeLoop]
  | cons buf rest ih =>
    intro st overall p hp
    have hLH := processXhrCalls_noLimit last
      { st with batchNew := [], newestBatch := none, limitHit := false } buf rfl
    unfold scrapeLoop
    dsimp only
    rw [if_neg (by simp [hLH])]
    rw [if_neg ?_]
    · rw [ih _ _ (p + 1) (Or.inl (by omega))]
      simp [List.length_cons]
      omega
    · rcases hp with hp | hp
      · simp only [Bool.and_eq_true, decide_eq_true_eq, Bool.not_eq_true',
          decide_eq_false_iff_not]
        intro hcon
        omega
      · simp [hp]

/-- With `limit` present and no watermark, the loop runs through every
buffer unless the limit fires. -/
theorem scrapeLoop_noWatermark (limit : Option Nat) :
    ∀ (bufs : List (List XhrCall)) (st : ProcState) (overall : Option String)
      (p : Nat),
      (scrapeLoop none limit st overall p bufs).2.2 = p + bufs.length ∨
      (scrapeLoop none limit st overall p bufs).1.limitHit = true := by
  intro bufs
  induction bufs with
  | nil => intro st overall p; left; simp [scrapeLoop]
  | cons buf rest ih =>
    intro st overall p
    unfold scrapeLoop
    dsimp only
    split
    · rename_i hhit
      right
      exact hhit
    · rw [if_neg (by simp)]
      rcases ih (processXhrCalls none limit
          { st with batchNew := [], newestBatch := none, limitHit := false } buf)
          (advanceWatermark overall (processXhrCalls none limit
            { st with batchNew := [], newestBatch := none, limitHit := false }
            buf).newestBatch) (p + 1) with h | h
      · left; rw [h]; simp [List.length_cons]; omega
      · right; exact h

/-- C7.  The fetch cycle skips all remaining incremental passes exactly
when the first pass yields zero new items and a watermark was already
established: (i) in that case only one pass runs, for any limit; (ii) with
no watermark every configured pass runs (and with a limit configured, the
only other way to stop early is the item limit firing); (iii) with no
limit, whenever the watermark/zero-new condition fails every configured
pass runs. -/
theorem C7_early_stop :
    (∀ (bufs : List (List XhrCall)) (last : Option String) (limit : Option Nat),
      last ≠ none → firstPassEmpty last limit bufs →
      (scrape_list bufs last limit).passesRun = 1) ∧
    (∀ bufs : List (List XhrCall),
      (scrape_list bufs none none).passesRun = bufs.length) ∧
    (∀ (bufs : List (List XhrCall)) (limit : Option Nat),
      (scrape_list bufs none limit).passesRun = bufs.length ∨
      (scrapeRaw bufs none limit).1.limitHit = true) ∧
    (∀ (bufs : List (List XhrCall)) (last : Option String),
      ¬(last ≠ none ∧ firstPassEmpty last none bufs) →
      (scrape_list bufs last none).passesRun = bufs.length) := by
  refine ⟨?_, ?_, ?_, ?_⟩
  · intro bufs last limit hlast hfpe
    cases bufs with
    | nil => simp [firstPassEmpty] at hfpe
    | cons buf rest =>
      have hfpe' : (processXhrCalls last limit ⟨[], [], [], none, false⟩
          buf).batchNew = [] := hfpe
      have hLH := firstPass_empty_no_limitHit last limit buf hfpe'
      show (scrapeLoop last limit ⟨[], [], [], none, false⟩ last 0
        (buf :: rest)).2.2 = 1
      unfold scrapeLoop
      dsimp only
      rw [if_neg (by simp [hLH]), if_pos (by simp [hfpe', hlast])]
  · intro bufs
    show (scrapeLoop none none ⟨[], [], [], none, false⟩ none 0 bufs).2.2
      = bufs.length
    rw [scrapeLoop_noLimit_length none bufs _ none 0 (Or.inr rfl)]
    omega
  · intro bufs limit
    rcases scrapeLoop_noWatermark limit bufs ⟨[], [], [], none, false⟩ none 0
      with h | h
    · left
      show (scrapeLoop none limit ⟨[], [], [], none, false⟩ none 0 bufs).2.2
        = bufs.length
      omega
    · right
      exact h
  · intro bufs last hn
    cases bufs with
    | nil => rfl
    | cons buf rest =>
      by_cases hlast : last = none
      · show (scrapeLoop last none ⟨[], [], [], none, false⟩ last 0
          (buf :: rest)).2.2 = (buf :: rest).length
        rw [scrapeLoop_noLimit_length last (buf :: rest) _ last 0 (Or.inr hlast)]
        omega
      · have hb : ¬ (processXhrCalls last none ⟨[], [], [], none, false⟩
            buf).batchNew = [] := by
          intro hcon
          exact hn ⟨hlast, hcon⟩
        have hLH := processXhrCalls_noLimit last ⟨[], [], [], none, false⟩ buf rfl
        show (scrapeLoop last none ⟨[], [], [], none, false⟩ last 0
          (buf :: rest)).2.2 = (buf :: rest).length
        unfold scrapeLoop
        dsimp only
        rw [if_neg (by simp [hLH]), if_neg (by simp [hb])]
        rw [scrapeLoop_noLimit_length last rest _ _ 1 (Or.inl le_rfl)]
        simp [List.length_cons]
        omega

/-- Witness for C7: two configured passes, watermark 100, first pass
containing only the already-delivered id 99 — the cycle stops after one
pass. -/
theorem C7_early_stop_witness :
    (scrape_list [[some [some [simpleEntry "99" "old"]]], []]
      (some "100") none).passesRun = 1 :=
  C7_early_stop.1 [[some [some [simpleEntry "99" "old"]]], []] (some "100")
    none (by decide)
    (show (processXhrCalls (some "100") none ⟨[], [], [], none, false⟩
      [some [some [simpleEntry "99" "old"]]]).batchNew = [] by decide)

/-! ### C2: arithmetic of top-k retention -/

theorem countP_le_of_nodup_subset {l₁ l₂ : List Nat} (h₁ : l₁.Nodup)
    (hsub : ∀ x ∈ l₁, x ∈ l₂) (p : Nat → Bool) :
    l₁.countP p ≤ l₂.countP p := by
  rw [List.countP_eq_length_filter, List.countP_eq_length_filter]
  apply List.Subperm.length_le
  apply List.subperm_of_subset (h₁.filter p)
  intro x hx
  rw [List.mem_filter] at hx ⊢
  exact ⟨hsub x hx.1, hx.2⟩

theorem length_le_countP_of_nodup {l₁ l₂ : List Nat} (h₁ : l₁.Nodup)
    (p : Nat → Bool) (hsub : ∀ x ∈ l₁, x ∈ l₂ ∧ p x = true) :
    l₁.length ≤ l₂.countP p := by
  rw [List.countP_eq_length_filter]
  apply List.Subperm.length_le
  apply List.subperm_of_subset h₁
  intro x hx
  rw [List.mem_filter]
  exact hsub x hx

/-- In a strictly-descending list, membership in the first `k` elements is
exactly membership with fewer than `k` strictly-greater elements. -/
theorem nat_mem_take_iff :
    ∀ (l : List Nat) (k x : Nat), l.Pairwise (· > ·) →
      (x ∈ l.take k ↔
        x ∈ l ∧ l.countP (fun z => decide (x < z)) < k) := by
  intro l
  induction l with
  | nil => intro k x _; simp
  | cons a t ih =>
    intro k x hp
    obtain ⟨ha, ht⟩ := List.pairwise_cons.mp hp
    cases k with
    | zero => simp
    | succ k' =>
      rw [List.take_succ_cons]
      by_cases hxa : x = a
      · subst hxa
        have hc : List.countP (fun z => decide (x < z)) (x :: t) = 0 := by
          rw [List.countP_eq_zero]
          intro z hz
          simp only [decide_eq_true_eq]
          rcases List.mem_cons.mp hz with h | h
          · omega
          · have := ha z h
            omega
        simp [hc]
      · have hmain : x ∈ List.take k' t ↔
            x ∈ t ∧ List.countP (fun z => decide (x < z)) t < k' := ih k' x ht
        constructor
        · intro hx
          rcases List.mem_cons.mp hx with h | h
          · exact absurd h hxa
          · obtain ⟨hxt, hcnt⟩ := hmain.mp h
            refine ⟨List.mem_cons_of_mem _ hxt, ?_⟩
            rw [List.countP_cons]
            have hxlt : x < a := ha x hxt
            simp [hxlt]
            omega
        · intro ⟨hmem, hcnt⟩
          rcases List.mem_cons.mp hmem with h | h
          · exact absurd h hxa
          · apply List.mem_cons_of_mem
            apply hmain.mpr
            refine ⟨h, ?_⟩
            have hxlt : x < a := ha x h
            rw [List.countP_cons] at hcnt
            simp [hxlt] at hcnt
            omega

/-- If at least `k` elements of a strictly-descending list exceed `x`,
every one of the first `k` elements exceeds `x`. -/
theorem take_all_gt :
    ∀ (l : List Nat) (k x : Nat), l.Pairwise (· > ·) →
      k ≤ l.countP (fun z => decide (x < z)) →
      ∀ y ∈ l.take k, x < y := by
  intro l
  induction l with
  | nil => intro k x _ _ y hy; simp at hy
  | cons a t ih =>
    intro k x hp hk y hy
    obtain ⟨ha, ht⟩ := List.pairwise_cons.mp hp
    cases k with
    | zero => simp at hy
    | succ k' =>
      rw [List.take_succ_cons] at hy
      by_cases hxa : x < a
      · rcases List.mem_cons.mp hy with h | h
        · omega
        · apply ih k' x ht ?_ y h
          rw [List.countP_cons] at hk
          simp [hxa] at hk
          omega
      · exfalso
        have hc : List.countP (fun z => decide (x < z)) (a :: t) = 0 := by
          rw [List.countP_eq_zero]
          intro z hz
          simp only [decide_eq_true_eq]
          rcases List.mem_cons.mp hz with h | h
          · omega
          · have := ha z h
            omega
        omega

theorem nat_pairwise_strict {l : List Nat} (hs : l.Pairwise (· ≥ ·))
    (hnd : l.Nodup) : l.Pairwise (· > ·) :=
  (hs.and hnd).imp (fun h => lt_of_le_of_ne h.1.le (Ne.symm h.2))

theorem nat_nodup_of_strict {l : List Nat} (hp : l.Pairwise (· > ·)) :
    l.Nodup :=
  hp.imp (fun h => Nat.ne_of_gt h)

/-- Two strictly-descending lists with the same members are equal. -/
theorem sorted_desc_ext {l₁ l₂ : List Nat} (h₁ : l₁.Pairwise (· > ·))
    (h₂ : l₂.Pairwise (· > ·)) (hmem : ∀ x, x ∈ l₁ ↔ x ∈ l₂) :
    l₁ = l₂ := by
  have hperm : l₁.Perm l₂ :=
    (List.perm_ext_iff_of_nodup (nat_nodup_of_strict h₁)
      (nat_nodup_of_strict h₂)).mpr hmem
  exact List.eq_of_perm_of_sorted hperm
    (h₁.imp (fun h => le_of_lt h)) (h₂.imp (fun h => le_of_lt h))

/-- Transfer of the "fewer than `k` greater elements" characterisation
from a subset `T` to a superset `S`, provided the `k` highest of `S` all
lie in `T`. -/
theorem topk_char_bridge {k : Nat} {T S : List Nat}
    (hT : T.Pairwise (· > ·)) (hS : S.Pairwise (· > ·))
    (hsub : ∀ x ∈ T, x ∈ S)
    (htop : ∀ y, y ∈ S → S.countP (fun z => decide (y < z)) < k → y ∈ T) :
    ∀ x, (x ∈ T ∧ T.countP (fun z => decide (x < z)) < k) ↔
      (x ∈ S ∧ S.countP (fun z => decide (x < z)) < k) := by
  intro x
  constructor
  · intro ⟨hxT, hcT⟩
    refine ⟨hsub x hxT, ?_⟩
    by_contra hcon
    push_neg at hcon
    have hgt := take_all_gt S k x hS hcon
    have hlenS : k ≤ S.length :=
      le_trans hcon (List.countP_le_length _)
    have htakelen : (S.take k).length = k := by
      rw [List.length_take]
      omega
    have hsubT : ∀ y ∈ S.take k, y ∈ T ∧ decide (x < y) = true := by
      intro y hy
      have hyS := List.take_subset k S hy
      have hyc := ((nat_mem_take_iff S k y hS).mp hy).2
      exact ⟨htop y hyS hyc, by simp [hgt y hy]⟩
    have hkc := length_le_countP_of_nodup
      (List.Nodup.sublist (List.take_sublist k S) (nat_nodup_of_strict hS))
      (fun z => decide (x < z)) hsubT
    rw [htakelen] at hkc
    omega
  · intro ⟨hxS, hcS⟩
    have hxT := htop x hxS hcS
    refine ⟨hxT, ?_⟩
    have := countP_le_of_nodup_subset (nat_nodup_of_strict hT) hsub
      (fun z => decide (x < z))
    omega

theorem key_nodup_of_canonical {l : List TweetData}
    (hc : ∀ t ∈ l, CanonicalId t.id) (hnd : (l.map (·.id)).Nodup) :
    (l.map tweetKey).Nodup := by
  have h1 : (l.map (·.id)).map idNum = l.map tweetKey := by
    rw [List.map_map]; rfl
  rw [← h1]
  apply hnd.map_on
  intro x hx y hy hxy
  obtain ⟨t, ht, hts⟩ := List.mem_map.mp hx
  obtain ⟨u, hu, hus⟩ := List.mem_map.mp hy
  exact canonicalId_inj (hts ▸ hc t ht) (hus ▸ hc u hu) hxy

theorem sortByIdDesc_sorted (l : List TweetData) :
    List.Pairwise (fun a b => tweetKey b ≤ tweetKey a) (sortByIdDesc l) :=
  List.sorted_insertionSort _ l

theorem sortByIdDesc_perm (l : List TweetData) :
    List.Perm (sortByIdDesc l) l :=
  List.perm_insertionSort _ l

/-- The key list of a descending-sorted list is `Pairwise (· ≥ ·)`. -/
theorem sorted_keys_ge (l : List TweetData) :
    ((sortByIdDesc l).map tweetKey).Pairwise (· ≥ ·) :=
  List.pairwise_map.mpr (sortByIdDesc_sorted l)

/-- `mergeHistory` is always the first `maxHistory` elements of the
sorted merged list. -/
theorem mergeHistory_eq_take (k : Nat) (hist new : List TweetData) :
    mergeHistory k hist new =
      (sortByIdDesc
        ((new.filter (fun t => !((hist.map (·.id)).contains t.id))) ++ hist)).take k := by
  unfold mergeHistory
  dsimp only
  split
  · rfl
  · rename_i h
    rw [List.take_of_length_le (by omega)]

theorem mergeHistory_subset (k : Nat) (hist new : List TweetData) :
    ∀ t ∈ mergeHistory k hist new, t ∈ new ∨ t ∈ hist := by
  intro t ht
  rw [mergeHistory_eq_take] at ht
  have h1 := List.take_subset _ _ ht
  have h2 := (sortByIdDesc_perm _).subset h1
  rcases List.mem_append.mp h2 with h | h
  · exact Or.inl (List.mem_of_mem_filter h)
  · exact Or.inr h

/-- Keys of the merged (pre-sort) list: no duplicates, given canonical
ids on both sides and id-level `Nodup` on each side. -/
theorem merged_keys_nodup {hist new : List TweetData}
    (hknd : (hist.map tweetKey).Nodup)
    (hhc : ∀ t ∈ hist, CanonicalId t.id)
    (hbnd : (new.map (·.id)).Nodup)
    (hbc : ∀ t ∈ new, CanonicalId t.id) :
    (((new.filter (fun t => !((hist.map (·.id)).contains t.id))) ++ hist).map
      tweetKey).Nodup := by
  rw [List.map_append, List.nodup_append]
  refine ⟨?_, hknd, ?_⟩
  · apply key_nodup_of_canonical
    · intro t ht
      exact hbc t (List.mem_of_mem_filter ht)
    · exact List.Nodup.sublist ((List.filter_sublist _).map _) hbnd
  · intro x hx hy
    obtain ⟨t, ht, hts⟩ := List.mem_map.mp hx
    obtain ⟨u, hu, hus⟩ := List.mem_map.mp hy
    rw [List.mem_filter] at ht
    have hids : t.id = u.id := by
      apply canonicalId_inj (hbc t ht.1) (hhc u hu)
      show tweetKey t = tweetKey u
      rw [hts, hus]
    have hcontains : (hist.map (·.id)).contains t.id = true := by
      rw [List.elem_iff]
      exact hids ▸ List.mem_map.mpr ⟨u, hu, rfl⟩
    rw [hcontains] at ht
    exact Bool.noConfusion ht.2

/-- Keys of the merged list are exactly the union of history keys and
batch keys. -/
theorem merged_keys_mem {hist new : List TweetData} :
    ∀ x, (x ∈ ((new.filter (fun t => !((hist.map (·.id)).contains t.id))) ++
        hist).map tweetKey) ↔
      (x ∈ hist.map tweetKey ∨ x ∈ new.map tweetKey) := by
  intro x
  rw [List.map_append, List.mem_append]
  constructor
  · intro h
    rcases h with h | h
    · obtain ⟨t, ht, hts⟩ := List.mem_map.mp h
      exact Or.inr (List.mem_map.mpr ⟨t, List.mem_of_mem_filter ht, hts⟩)
    · exact Or.inl h
  · intro h
    rcases h with h | h
    · exact Or.inr h
    · obtain ⟨t, ht, hts⟩ := List.mem_map.mp h
      by_cases hmem : (hist.map (·.id)).contains t.id = true
      · rw [List.elem_iff] at hmem
        obtain ⟨u, hu, hui⟩ := List.mem_map.mp hmem
        refine Or.inr (List.mem_map.mpr ⟨u, hu, ?_⟩)
        show tweetKey u = x
        rw [← hts]
        show idNum u.id = idNum t.id
        rw [hui]
      · refine Or.inl (List.mem_map.mpr
          ⟨t, List.mem_filter.mpr ⟨ht, ?_⟩, hts⟩)
        rw [Bool.not_eq_true] at hmem
        rw [hmem]
        rfl

/-- One merge step: if the history keys are the top `k` of the strictly
sorted pool `A`, then after merging a batch the history keys are the top
`k` of a strictly sorted pool holding `A` together with the batch keys. -/
theorem mergeHistory_step (k : Nat) (H b : List TweetData) (A : List Nat)
    (hA : A.Pairwise (· > ·))
    (hHA : H.map tweetKey = A.take k)
    (hHc : ∀ t ∈ H, CanonicalId t.id)
    (hbnd : (b.map (·.id)).Nodup)
    (hbc : ∀ t ∈ b, CanonicalId t.id) :
    ∃ A' : List Nat, A'.Pairwise (· > ·) ∧
      (∀ x, x ∈ A' ↔ x ∈ A ∨ x ∈ b.map tweetKey) ∧
      (mergeHistory k H b).map tweetKey = A'.take k ∧
      (∀ t ∈ mergeHistory k H b, CanonicalId t.id) := by
  refine ⟨sortDescNat ((A ++ b.map tweetKey).dedup), ?_, ?_, ?_, ?_⟩
  case refine_2 =>
    intro x
    simp [sortDescNat, List.mem_dedup]
  case refine_1 =>
    apply nat_pairwise_strict
    · exact List.sorted_insertionSort _ _
    · exact ((List.perm_insertionSort _ _).nodup_iff).mpr (List.nodup_dedup _)
  case refine_4 =>
    intro t ht
    rcases mergeHistory_subset k H b t ht with h | h
    · exact hbc t h
    · exact hHc t h
  case refine_3 =>
    have hA'strict : (sortDescNat ((A ++ b.map tweetKey).dedup)).Pairwise (· > ·) := by
      apply nat_pairwise_strict
      · exact List.sorted_insertionSort _ _
      · exact ((List.perm_insertionSort _ _).nodup_iff).mpr (List.nodup_dedup _)
    have hA'mem : ∀ x, x ∈ sortDescNat ((A ++ b.map tweetKey).dedup) ↔
        x ∈ A ∨ x ∈ b.map tweetKey := by
      intro x
      simp [sortDescNat, List.mem_dedup]
    rw [mergeHistory_eq_take, List.map_take]
    have hHknd : (H.map tweetKey).Nodup := by
      rw [hHA]
      exact List.Nodup.sublist (List.take_sublist _ _) (nat_nodup_of_strict hA)
    have hmergednd := merged_keys_nodup hHknd hHc hbnd hbc
    have hLmperm : List.Perm
        ((sortByIdDesc ((b.filter
          (fun t => !((H.map (·.id)).contains t.id))) ++ H)).map tweetKey)
        (((b.filter (fun t => !((H.map (·.id)).contains t.id))) ++ H).map
          tweetKey) :=
      (sortByIdDesc_perm _).map _
    have hLmnd := (hLmperm.nodup_iff).mpr hmergednd
    have hLmstrict := nat_pairwise_strict (sorted_keys_ge _) hLmnd
    have hLmmem : ∀ x,
        (x ∈ (sortByIdDesc ((b.filter
          (fun t => !((H.map (·.id)).contains t.id))) ++ H)).map tweetKey) ↔
        (x ∈ H.map tweetKey ∨ x ∈ b.map tweetKey) := by
      intro x
      rw [hLmperm.mem_iff]
      exact merged_keys_mem x
    apply sorted_desc_ext
    · exact List.Pairwise.sublist (List.take_sublist _ _) hLmstrict
    · exact List.Pairwise.sublist (List.take_sublist _ _) hA'strict
    · intro x
      rw [nat_mem_take_iff _ k x hLmstrict, nat_mem_take_iff _ k x hA'strict]
      apply topk_char_bridge hLmstrict hA'strict
      · intro y hy
        rcases (hLmmem y).mp hy with h | h
        · rw [hHA] at h
          exact (hA'mem y).mpr (Or.inl (List.take_subset _ _ h))
        · exact (hA'mem y).mpr (Or.inr h)
      · intro y hyA' hcnt
        rcases (hA'mem y).mp hyA' with h | h
        · apply (hLmmem y).mpr
          left
          rw [hHA]
          apply (nat_mem_take_iff A k y hA).mpr
          refine ⟨h, ?_⟩
          have hle := countP_le_of_nodup_subset (nat_nodup_of_strict hA)
            (fun z hz => (hA'mem z).mpr (Or.inl hz))
            (fun z => decide (y < z))
          omega
        · exact (hLmmem y).mpr (Or.inr h)

/-- Folding a run of batches from any valid history keeps the history
keys equal to the top `k` of a strictly sorted pool of every id seen. -/
theorem mergeAll_aux (k : Nat) :
    ∀ (batches : List (List TweetData)) (H : List TweetData) (A : List Nat),
      A.Pairwise (· > ·) →
      H.map tweetKey = A.take k →
      (∀ t ∈ H, CanonicalId t.id) →
      (∀ b ∈ batches, (b.map (·.id)).Nodup) →
      (∀ b ∈ batches, ∀ t ∈ b, CanonicalId t.id) →
      ∃ A' : List Nat, A'.Pairwise (· > ·) ∧
        (∀ x, x ∈ A' ↔ x ∈ A ∨ x ∈ batches.flatten.map tweetKey) ∧
        (batches.foldl (mergeHistory k) H).map tweetKey = A'.take k ∧
        (∀ t ∈ batches.foldl (mergeHistory k) H, CanonicalId t.id) ∧
        (∀ t ∈ batches.foldl (mergeHistory k) H,
          t ∈ batches.flatten ∨ t ∈ H) := by
  intro batches
  induction batches with
  | nil =>
    intro H A hA hHA hHc _ _
    exact ⟨A, hA, by simp, hHA, hHc, fun t ht => Or.inr ht⟩
  | cons b bs ih =>
    intro H A hA hHA hHc hnd hc
    obtain ⟨A₁, hA₁, hA₁mem, hHA₁, hHc₁⟩ :=
      mergeHistory_step k H b A hA hHA hHc
        (hnd b (List.mem_cons_self _ _)) (hc b (List.mem_cons_self _ _))
    obtain ⟨A₂, hA₂, hA₂mem, hHA₂, hHc₂, hprov₂⟩ :=
      ih (mergeHistory k H b) A₁ hA₁ hHA₁ hHc₁
        (fun b' hb' => hnd b' (List.mem_cons_of_mem _ hb'))
        (fun b' hb' => hc b' (List.mem_cons_of_mem _ hb'))
    refine ⟨A₂, hA₂, ?_, hHA₂, hHc₂, ?_⟩
    · intro x
      rw [hA₂mem x]
      rw [List.flatten_cons, List.map_append, List.mem_append]
      rw [hA₁mem x]
      tauto
    · intro t ht
      rcases hprov₂ t ht with h | h
      · left
        rw [List.flatten_cons, List.mem_append]
        exact Or.inr h
      · rcases mergeHistory_subset k H b t h with h2 | h2
        · left
          rw [List.flatten_cons, List.mem_append]
          exact Or.inl h2
        · exact Or.inr h2

/-- C2.  For every existing history and every batch (each with distinct
canonical ids): the merge (scraper.py:1474-1484, 1780-1788) produces a
history sorted descending by numeric id of length at most `maxHistory`
with no duplicate ids; and over any run of batches starting from an empty
store, the retained items are exactly the `maxHistory` highest-id items
among all items ever merged — an id is retained iff it was merged and
fewer than `maxHistory` merged ids exceed it, the history size is the
minimum of `maxHistory` and the number of distinct ids ever merged, and
every retained item came from some batch. -/
theorem C2_history_merge :
    (∀ (k : Nat) (hist new : List TweetData),
      List.Pairwise (fun a b => tweetKey b ≤ tweetKey a)
        (mergeHistory k hist new) ∧
      (mergeHistory k hist new).length ≤ k) ∧
    (∀ (k : Nat) (hist new : List TweetData),
      (hist.map (·.id)).Nodup → (new.map (·.id)).Nodup →
      ((mergeHistory k hist new).map (·.id)).Nodup) ∧
    (∀ (k : Nat) (batches : List (List TweetData)),
      (∀ b ∈ batches, (b.map (·.id)).Nodup) →
      (∀ b ∈ batches, ∀ t ∈ b, CanonicalId t.id) →
      (∀ x : Nat, x ∈ (mergeAll k batches).map tweetKey ↔
        (x ∈ (batches.flatten.map tweetKey).dedup ∧
          (batches.flatten.map tweetKey).dedup.countP
            (fun z => decide (x < z)) < k)) ∧
      (mergeAll k batches).length
        = min k (batches.flatten.map tweetKey).dedup.length ∧
      (∀ t ∈ mergeAll k batches, t ∈ batches.flatten)) := by
  refine ⟨?_, ?_, ?_⟩
  · intro k hist new
    rw [mergeHistory_eq_take]
    constructor
    · exact List.Pairwise.sublist (List.take_sublist _ _)
        (sortByIdDesc_sorted _)
    · rw [List.length_take]
      omega
  · intro k hist new hhnd hbnd
    rw [mergeHistory_eq_take, List.map_take]
    apply List.Nodup.sublist (List.take_sublist _ _)
    apply ((((sortByIdDesc_perm _).map (·.id)).nodup_iff).mpr)
    rw [List.map_append, List.nodup_append]
    refine ⟨?_, hhnd, ?_⟩
    · exact List.Nodup.sublist ((List.filter_sublist _).map _) hbnd
    · intro x hx hy
      obtain ⟨t, ht, hts⟩ := List.mem_map.mp hx
      rw [List.mem_filter] at ht
      have : (hist.map (·.id)).contains t.id = true := by
        rw [List.elem_iff]
        exact hts ▸ hy
      rw [this] at ht
      exact Bool.noConfusion ht.2
  · intro k batches hnd hc
    obtain ⟨A', hA', hA'mem, hHA', _, hprov⟩ :=
      mergeAll_aux k batches [] [] (List.Pairwise.nil) (by simp)
        (by simp) hnd hc
    have hA'mem' : ∀ x, x ∈ A' ↔ x ∈ batches.flatten.map tweetKey := by
      intro x
      rw [hA'mem x]
      simp
    have hDnd := List.nodup_dedup (batches.flatten.map tweetKey)
    have hperm : List.Perm A' (batches.flatten.map tweetKey).dedup := by
      rw [List.perm_ext_iff_of_nodup (nat_nodup_of_strict hA') hDnd]
      intro a
      rw [hA'mem' a, List.mem_dedup]
    refine ⟨?_, ?_, ?_⟩
    · intro x
      show x ∈ (mergeAll k batches).map tweetKey ↔ _
      rw [show (mergeAll k batches).map tweetKey = A'.take k from hHA']
      rw [nat_mem_take_iff A' k x hA']
      rw [hperm.countP_eq (fun z => decide (x < z))]
      rw [hA'mem' x, List.mem_dedup]
    · have h1 : (mergeAll k batches).length
          = ((mergeAll k batches).map tweetKey).length :=
        (List.length_map _ _).symm
      rw [h1]
      rw [show (mergeAll k batches).map tweetKey = A'.take k from hHA']
      rw [List.length_take, hperm.length_eq]
    · intro t ht
      rcases hprov t ht with h | h
      · exact h
      · exact absurd h (List.not_mem_nil t)

/-- Witness for C2: two cycles of two items each with `maxHistory = 2` —
the retained history is exactly the two highest ids 104 and 103, of
length `min 2 4`. -/
theorem C2_history_merge_witness :
    mergeAll 2 [[simpleItem "103" "a", simpleItem "101" "b"],
        [simpleItem "104" "c", simpleItem "102" "d"]]
      = [simpleItem "104" "c", simpleItem "103" "a"] ∧
    (mergeAll 2 [[simpleItem "103" "a", simpleItem "101" "b"],
        [simpleItem "104" "c", simpleItem "102" "d"]]).length
      = min 2 (([[simpleItem "103" "a", simpleItem "101" "b"],
          [simpleItem "104" "c", simpleItem "102" "d"]] :
            List (List TweetData)).flatten.map tweetKey).dedup.length ∧
    (104 ∈ (mergeAll 2 [[simpleItem "103" "a", simpleItem "101" "b"],
        [simpleItem "104" "c", simpleItem "102" "d"]]).map tweetKey) := by
  have h := C2_history_merge.2.2 2
    [[simpleItem "103" "a", simpleItem "101" "b"],
     [simpleItem "104" "c", simpleItem "102" "d"]]
    (by decide) (by decide)
  exact ⟨by decide, h.2.1, (h.1 104).mpr (by decide)⟩

end XListScraper
